import Mathlib

/-!
A verification development for the bdenc in-place chunked AES-256-CBC
device encryption tool (src/src/main.cpp).  The cipher primitive itself
(OpenSSL EVP AES-256-CBC with padding disabled) is external to the
repository; it is modelled from the specification contract (spec section 4.5
and section 6): CBC chaining over an abstract 16-byte block permutation.
A Block stands for one 16-byte cipher block, a Chunk for one device chunk
(chunkSize bytes, i.e. chunkSize / 16 blocks).  Workdir files are modelled
as fields of a Disk record; byte offsets are kept exactly as the source
computes them.
-/

namespace BdEnc

/-- One 16-byte cipher block, abstracted as a natural number; XOR of
blocks is bitwise XOR. -/
abbrev Block := Nat

/-- One device chunk: chunkSize bytes, modelled as chunkSize / 16 cipher
blocks. -/
abbrev Chunk := List Block

/-- TMode from src/src/main.cpp lines 32-37 (MODE_DEFAULT is rejected
during argument parsing, which is out of scope). -/
inductive Mode
  | enc
  | dec
deriving DecidableEq, Repr

/-- Fatal error classes of the modelled region (spec section 7).
undefinedBehavior stands for C++ undefined behaviour: the modulo by zero
at src line 185 when chunkSize is 0. -/
inductive Err
  | configMismatch
  | undefinedBehavior
  | missingKeyMaterial
  | corruptStage
  | cipherLengthMismatch
deriving DecidableEq, Repr

/-- Outcome of a run.  alreadyDone corresponds to printing "Already done"
and exiting 0 (src lines 267-270), success to printing "Success!" and
exiting 0 (src lines 464-466), failure to exiting 1. -/
inductive Outcome
  | alreadyDone
  | success
  | failure (e : Err)
deriving DecidableEq, Repr

/-- Process exit code of an outcome. -/
def Outcome.exitCode : Outcome → Nat
  | .failure _ => 1
  | _ => 0

/-- Observable operations of a run, in program order.  The fsync events
mark the durability points of the crash-safety protocol. -/
inductive Ev
  | ivCreate
  | keyCreate
  | cipherInit
  | cipherUpdate (off : Nat)
  | cipherFinal
  | offsetCreate
  | sparseCreate
  | stageFsync (m : Mode) (off : Nat)
  | devWrite (off : Nat)
  | devFsync (off : Nat)
  | sparseFsync (off : Nat)
  | offsetFsync (val : Nat)
  | unlinkStage (m : Mode) (off : Nat)
deriving DecidableEq, Repr

/-- Kind of a durable-state snapshot: the state left behind if the process
is killed right after the corresponding fsync returns. -/
inductive SnapKind
  | stageS
  | devS
  | sparseS
  | offS
deriving DecidableEq, Repr

/-- The run configuration after argument parsing (src lines 111-150):
mode, dryRun and chunkSize in bytes, plus the loaded key material: E and
D are the AES-256 block permutation and its inverse under the key stored
in the .key file (modelled abstractly per spec section 4.5), iv is the
16-byte block stored in the .iv file. -/
structure Cfg where
  mode : Mode
  dryRun : Bool
  chunkSize : Nat
  E : Block → Block
  D : Block → Block
  iv : Block

/-- The persistent state: the device contents as a list of chunks plus the
workdir files.  hasKey and hasIv model existence of .key and .iv, offEnc
and offDec the enc_offset and dec_offset files (none when absent),
sparse the enc_sparse file (none when absent, otherwise the stored
64-bit big-endian offsets in file order), stages the
<mode>_chunk-<offset> stage files. -/
structure Disk where
  device : List Chunk
  hasKey : Bool
  hasIv : Bool
  offEnc : Option Nat
  offDec : Option Nat
  sparse : Option (List Nat)
  stages : List (Mode × Nat × Chunk)
deriving DecidableEq, Repr

/-- A durable snapshot: kind, the offset of the chunk being processed, and
the disk state at that point. -/
abbrev Snap := SnapKind × Nat × Disk

/-- Content of the offset file of a mode (src line 247: modeName +
"_offset"). -/
def Disk.offFile (d : Disk) : Mode → Option Nat
  | .enc => d.offEnc
  | .dec => d.offDec

/-- Overwrite the offset file of a mode with a value (src lines 396-400). -/
def Disk.setOffFile (d : Disk) : Mode → Nat → Disk
  | .enc, v => { d with offEnc := some v }
  | .dec, v => { d with offDec := some v }

/-- Existence check and load of a stage file <mode>_chunk-<offset>
(src line 313). -/
def stageLookup : List (Mode × Nat × Chunk) → Mode → Nat → Option Chunk
  | [], _, _ => none
  | (m', o', c) :: rest, m, o =>
    if m' = m ∧ o' = o then some c else stageLookup rest m o

/-- Unlink of a stage file (src lines 408-412). -/
def stageErase : List (Mode × Nat × Chunk) → Mode → Nat → List (Mode × Nat × Chunk)
  | [], _, _ => []
  | (m', o', c) :: rest, m, o =>
    if m' = m ∧ o' = o then stageErase rest m o else (m', o', c) :: stageErase rest m o

/-- In-memory state inside the chunk loop (src lines 309-445): the disk,
the offset local variable, the EVP chaining block, and the sparse cursor
(src variable sparseOffset; the byte cursor into the sparse file is
modelled as the not-yet-consumed suffix of its entry list). -/
structure RS where
  disk : Disk
  offset : Nat
  chain : Block
  sparseCur : List Nat
deriving DecidableEq, Repr

/-- Result of a whole run: the events performed, the durable snapshots a
kill could leave behind, the outcome, and the final disk state. -/
structure Run where
  trace : List Ev
  snaps : List Snap
  outcome : Outcome
  disk : Disk
deriving DecidableEq, Repr

/-- Modelled from the spec: one EVP CBC encryption update with padding
disabled (spec section 4.5, the CipherStream contract; the primitive
itself lives in OpenSSL, outside this repository).  Each output block is
E applied to the plaintext block XORed with the chaining block; the new
chaining block is the last ciphertext block produced. -/
def cbcEnc (E : Block → Block) : Block → Chunk → Chunk × Block
  | chain, [] => ([], chain)
  | chain, p :: ps =>
    (E (p ^^^ chain) :: (cbcEnc E (E (p ^^^ chain)) ps).1,
     (cbcEnc E (E (p ^^^ chain)) ps).2)

/-- Modelled from the spec: one EVP CBC decryption update with padding
disabled (spec section 4.5; the primitive itself lives in OpenSSL,
outside this repository).  Each output block is D applied to the
ciphertext block, XORed with the chaining block; the new chaining block
is the last ciphertext input block. -/
def cbcDec (Dc : Block → Block) : Block → Chunk → Chunk × Block
  | chain, [] => ([], chain)
  | chain, c :: rest =>
    ((Dc c ^^^ chain) :: (cbcDec Dc c rest).1, (cbcDec Dc c rest).2)

/-- EVPUpdateWrapper (src lines 85-93): dispatches one cipher update to
the encrypt or the decrypt direction. -/
def EVPUpdateWrapper (cfg : Cfg) (chain : Block) (c : Chunk) : Chunk × Block :=
  match cfg.mode with
  | .enc => cbcEnc cfg.E chain c
  | .dec => cbcDec cfg.D chain c

/-- The allZeroes test on a chunk (src line 333: memcmp against a zeroed
buffer). -/
def allZeroes (c : Chunk) : Bool := c.all (fun b => b == 0)

/-- The sparsity decision for a chunk with no stage file (src lines
332-350).  In encrypt mode the plaintext is compared against zero; in
decrypt mode the sparse cursor is advanced past entries below the current
offset and the chunk is sparse exactly when the next entry equals the
offset.  Returns the updated cursor and the allZeroes flag. -/
def sparseDecide (cfg : Cfg) (s : RS) : List Nat × Bool :=
  match cfg.mode with
  | .enc => (s.sparseCur, allZeroes (s.disk.device.getD (s.offset / cfg.chunkSize) []))
  | .dec =>
    ((s.sparseCur.dropWhile (fun e => decide (e < s.offset))),
     ((s.sparseCur.dropWhile (fun e => decide (e < s.offset))).head? == some s.offset))

/-- Resume branch of the chunk loop (src lines 313-329 plus the shared
tail 394-412): a stage file exists for the current offset; replay it to
the device (unless dryRun), advance the offset file, unlink the stage.
The cipher is not invoked. -/
def stepResume (cfg : Cfg) (s : RS) (st : Chunk) : List Ev × List Snap × Except (Err × Disk) RS :=
  if 16 * st.length ≠ cfg.chunkSize then ([], [], .error (.corruptStage, s.disk))
  else
    let o := s.offset
    let devPart :=
      if cfg.dryRun then (([] : List Ev), ([] : List Snap), s.disk)
      else
        let d := { s.disk with device := s.disk.device.set (o / cfg.chunkSize) st }
        ([Ev.devWrite o, Ev.devFsync o], [(SnapKind.devS, o, d)], d)
    let d2 := devPart.2.2.setOffFile cfg.mode (o + cfg.chunkSize)
    let d3 := { d2 with stages := stageErase d2.stages cfg.mode o }
    (devPart.1 ++ [Ev.offsetFsync (o + cfg.chunkSize), Ev.unlinkStage cfg.mode o],
     devPart.2.1 ++ [(SnapKind.offS, o, d2)],
     .ok { s with disk := d3, offset := o + cfg.chunkSize })

/-- Sparse path in encrypt mode (src lines 352-363 plus the shared tail
394-412): append the offset to the sparse file and fsync it, then advance
the offset file.  The device and the cipher chain are untouched and no
unlink happens. -/
def stepSparseEnc (cfg : Cfg) (s : RS) : List Ev × List Snap × Except (Err × Disk) RS :=
  let o := s.offset
  let d1 := { s.disk with sparse := some (s.disk.sparse.getD [] ++ [o]) }
  let d2 := d1.setOffFile cfg.mode (o + cfg.chunkSize)
  ([Ev.sparseFsync o, Ev.offsetFsync (o + cfg.chunkSize)],
   [(SnapKind.sparseS, o, d1), (SnapKind.offS, o, d2)],
   .ok { s with disk := d2, offset := o + cfg.chunkSize })

/-- Sparse path in decrypt mode (shared tail, src lines 394-406): nothing
but the offset advance; device, sparse file and cipher chain untouched. -/
def stepSparseDec (cfg : Cfg) (s : RS) (cur : List Nat) : List Ev × List Snap × Except (Err × Disk) RS :=
  let o := s.offset
  let d2 := s.disk.setOffFile cfg.mode (o + cfg.chunkSize)
  ([Ev.offsetFsync (o + cfg.chunkSize)],
   [(SnapKind.offS, o, d2)],
   .ok { s with disk := d2, offset := o + cfg.chunkSize, sparseCur := cur })

/-- Transform path (src lines 366-412): run the cipher update, check the
output length, create and fsync the stage file, write the device (unless
dryRun) and fsync it, advance the offset file, unlink the stage file. -/
def stepTransform (cfg : Cfg) (s : RS) (chunk : Chunk) (cur : List Nat) :
    List Ev × List Snap × Except (Err × Disk) RS :=
  let o := s.offset
  let out := (EVPUpdateWrapper cfg s.chain chunk).1
  let newChain := (EVPUpdateWrapper cfg s.chain chunk).2
  if 16 * out.length ≠ cfg.chunkSize then
    ([Ev.cipherUpdate o], [], .error (.cipherLengthMismatch, s.disk))
  else
    let dStage := { s.disk with stages := (cfg.mode, o, out) :: s.disk.stages }
    let devPart :=
      if cfg.dryRun then (([] : List Ev), ([] : List Snap), dStage)
      else
        let d := { dStage with device := dStage.device.set (o / cfg.chunkSize) out }
        ([Ev.devWrite o, Ev.devFsync o], [(SnapKind.devS, o, d)], d)
    let dOff := devPart.2.2.setOffFile cfg.mode (o + cfg.chunkSize)
    let dFin := { dOff with stages := stageErase dOff.stages cfg.mode o }
    ([Ev.cipherUpdate o, Ev.stageFsync cfg.mode o] ++ devPart.1
       ++ [Ev.offsetFsync (o + cfg.chunkSize), Ev.unlinkStage cfg.mode o],
     [(SnapKind.stageS, o, dStage)] ++ devPart.2.1 ++ [(SnapKind.offS, o, dOff)],
     .ok { s with disk := dFin, offset := o + cfg.chunkSize, chain := newChain, sparseCur := cur })

/-- One iteration of the chunk loop (src lines 309-445; the progress
reporting of lines 414-444 only writes to stderr and is omitted). -/
def stepChunk (cfg : Cfg) (s : RS) : List Ev × List Snap × Except (Err × Disk) RS :=
  match stageLookup s.disk.stages cfg.mode s.offset with
  | some st => stepResume cfg s st
  | none =>
    let dec := sparseDecide cfg s
    if dec.2 then
      match cfg.mode with
      | .enc => stepSparseEnc cfg s
      | .dec => stepSparseDec cfg s dec.1
    else
      stepTransform cfg s (s.disk.device.getD (s.offset / cfg.chunkSize) []) dec.1

/-- The chunk loop (src line 309), driven by the number of remaining
chunks. -/
def runLoop (cfg : Cfg) : Nat → RS → List Ev × List Snap × Except (Err × Disk) RS
  | 0, s => ([], [], .ok s)
  | n + 1, s =>
    match stepChunk cfg s with
    | (ev, sn, .error e) => (ev, sn, .error e)
    | (ev, sn, .ok s') =>
      ((ev ++ (runLoop cfg n s').1),
       (sn ++ (runLoop cfg n s').2.1),
       (runLoop cfg n s').2.2)

/-- The startup validation of the chunk size and the device size
(src lines 173-176 and 185-188).  The alignment check is chunkSize % 16;
a chunkSize of 0 passes it and the subsequent device-size check then
evaluates size % 0, which in C++ is undefined behaviour. -/
def validateSizes (csz devSize : Nat) : Except Err Unit :=
  if csz % 16 ≠ 0 then .error .configMismatch
  else if csz = 0 then .error .undefinedBehavior
  else if devSize % csz ≠ 0 then .error .configMismatch
  else .ok ()

/-- Key-material handling (src lines 194-210): if .iv or .key is missing,
decrypt fails; encrypt creates both (iv first, then key, each with an
fsync inside CreateFile). -/
def ensureKeys (m : Mode) (d : Disk) : List Ev × Except Err Disk :=
  if d.hasIv = false ∨ d.hasKey = false then
    if m = .dec then ([], .error .missingKeyMaterial)
    else ([Ev.ivCreate, Ev.keyCreate], .ok { d with hasIv := true, hasKey := true })
  else ([], .ok d)

/-- The modelled main (src lines 105-467) after argument parsing: size
validation, key material, cipher context creation and initialisation
(which happen before the already-done check), offset file creation or
load, the already-done shortcut, sparse file creation or open, the chunk
loop, and finalisation (EVPFinalWrapper, which with padding disabled
produces zero trailing bytes, so no .final file appears). -/
def mainModel (cfg : Cfg) (d0 : Disk) : Run :=
  match validateSizes cfg.chunkSize (d0.device.length * cfg.chunkSize) with
  | .error e => ⟨[], [], .failure e, d0⟩
  | .ok _ =>
    match ensureKeys cfg.mode d0 with
    | (evK, .error e) => ⟨evK, [], .failure e, d0⟩
    | (evK, .ok d1) =>
      let evI := evK ++ [Ev.cipherInit]
      let offPart :=
        match d1.offFile cfg.mode with
        | none => (evI ++ [Ev.offsetCreate], d1.setOffFile cfg.mode 0)
        | some _ => (evI, d1)
      let d2 := offPart.2
      let off := (d2.offFile cfg.mode).getD 0
      if d2.device.length * cfg.chunkSize ≤ off then
        ⟨offPart.1, [], .alreadyDone, d2⟩
      else
        let spPart :=
          match d2.sparse with
          | none => (offPart.1 ++ [Ev.sparseCreate], { d2 with sparse := some [] })
          | some _ => (offPart.1, d2)
        let d3 := spPart.2
        let s0 : RS := ⟨d3, off, cfg.iv, d3.sparse.getD []⟩
        let loopOut := runLoop cfg (d3.device.length - off / cfg.chunkSize) s0
        match loopOut.2.2 with
        | .error e => ⟨spPart.1 ++ loopOut.1, loopOut.2.1, .failure e.1, e.2⟩
        | .ok sF => ⟨spPart.1 ++ loopOut.1 ++ [Ev.cipherFinal], loopOut.2.1, .success, sF.disk⟩

/-- Pure chunk-level view of an uninterrupted encrypt pass starting at
byte offset o (the loop of src lines 309-445 on a fresh workdir): returns
the device contents, the appended sparse entries and the final chaining
block.  An all-zero chunk is left as is and its offset recorded; any
other chunk is fed through CBC. -/
def encList (E : Block → Block) (csz : Nat) : Block → Nat → List Chunk → List Chunk × List Nat × Block
  | chain, _, [] => ([], [], chain)
  | chain, o, c :: rest =>
    if allZeroes c then
      (c :: (encList E csz chain (o + csz) rest).1,
       o :: (encList E csz chain (o + csz) rest).2.1,
       (encList E csz chain (o + csz) rest).2.2)
    else
      ((cbcEnc E chain c).1 :: (encList E csz (cbcEnc E chain c).2 (o + csz) rest).1,
       (encList E csz (cbcEnc E chain c).2 (o + csz) rest).2.1,
       (encList E csz (cbcEnc E chain c).2 (o + csz) rest).2.2)

/-- Pure chunk-level view of an uninterrupted decrypt pass starting at
byte offset o with the given suffix of the sparse log (the loop of src
lines 309-445): the cursor is advanced past entries below o; a chunk
whose offset heads the remaining log is left as is; any other chunk is
fed through CBC.  Returns the device contents and the final chaining
block. -/
def decList (Dc : Block → Block) (csz : Nat) : Block → Nat → List Nat → List Chunk → List Chunk × Block
  | chain, _, _, [] => ([], chain)
  | chain, o, sp, c :: rest =>
    if (sp.dropWhile (fun e => decide (e < o))).head? = some o then
      (c :: (decList Dc csz chain (o + csz) (sp.dropWhile (fun e => decide (e < o))) rest).1,
       (decList Dc csz chain (o + csz) (sp.dropWhile (fun e => decide (e < o))) rest).2)
    else
      ((cbcDec Dc chain c).1
         :: (decList Dc csz (cbcDec Dc chain c).2 (o + csz) (sp.dropWhile (fun e => decide (e < o))) rest).1,
       (decList Dc csz (cbcDec Dc chain c).2 (o + csz) (sp.dropWhile (fun e => decide (e < o))) rest).2)

/-- A decrypt pass that feeds every chunk through CBC (what decrypt does
when the sparse log never matches). -/
def cbcDecAll (Dc : Block → Block) : Block → List Chunk → List Chunk
  | _, [] => []
  | chain, c :: rest => (cbcDec Dc chain c).1 :: cbcDecAll Dc (cbcDec Dc chain c).2 rest

/-- Event a occurs strictly before event b in the trace tr. -/
def evBefore (tr : List Ev) (a b : Ev) : Prop :=
  ∃ i j, i < j ∧ tr.get? i = some a ∧ tr.get? j = some b

/-- Entries of the sparse file, empty when the file is absent. -/
def sparseEntries (d : Disk) : List Nat := d.sparse.getD []

/-- Durable-state invariant of the sparse log: entries non-decreasing and
bounded by the persisted encrypt offset. -/
def DiskInv (d : Disk) : Prop :=
  List.Chain' (· ≤ ·) (sparseEntries d) ∧ ∀ e ∈ sparseEntries d, e ≤ d.offEnc.getD 0

/-- Loop-state invariant corresponding to DiskInv in encrypt mode. -/
def RSInv (s : RS) : Prop :=
  List.Chain' (· ≤ ·) (sparseEntries s.disk)
    ∧ (∀ e ∈ sparseEntries s.disk, e ≤ s.offset)
    ∧ s.disk.offEnc = some s.offset

/-- The XOR-by-7 block permutation, a self-inverse instance of the
abstract block cipher used to evaluate the model on concrete inputs. -/
def xorP (b : Block) : Block := b ^^^ 7

/-- A workdir with no state yet, around a given device. -/
def freshDisk (dev : List Chunk) (hk hi : Bool) : Disk :=
  ⟨dev, hk, hi, none, none, none, []⟩

theorem cbcEnc_length (E : Block → Block) : ∀ (c : Chunk) (chain : Block),
    (cbcEnc E chain c).1.length = c.length := by
  intro c
  induction c with
  | nil => intro chain; simp [cbcEnc]
  | cons p ps ih => intro chain; simp [cbcEnc, ih]

theorem cbcDec_length (Dc : Block → Block) : ∀ (c : Chunk) (chain : Block),
    (cbcDec Dc chain c).1.length = c.length := by
  intro c
  induction c with
  | nil => intro chain; simp [cbcDec]
  | cons p ps ih => intro chain; simp [cbcDec, ih]

theorem EVPUpdateWrapper_length (cfg : Cfg) (chain : Block) (c : Chunk) :
    (EVPUpdateWrapper cfg chain c).1.length = c.length := by
  cases h : cfg.mode <;> simp [EVPUpdateWrapper, h, cbcEnc_length, cbcDec_length]

theorem cbcDec_cbcEnc (E Dc : Block → Block) (hED : ∀ b, Dc (E b) = b) :
    ∀ (c : Chunk) (chain : Block),
    cbcDec Dc chain (cbcEnc E chain c).1 = (c, (cbcEnc E chain c).2) := by
  intro c
  induction c with
  | nil => intro chain; simp [cbcEnc, cbcDec]
  | cons p ps ih =>
    intro chain
    simp only [cbcEnc, cbcDec, hED, ih]
    simp [Nat.xor_assoc]

theorem dropWhile_of_ge (o : Nat) : ∀ (l : List Nat), (∀ e ∈ l, o ≤ e) →
    l.dropWhile (fun e => decide (e < o)) = l := by
  intro l h
  cases l with
  | nil => rfl
  | cons x rest =>
    have hx : o ≤ x := h x (by simp)
    simp [List.dropWhile_cons, Nat.not_lt.mpr hx]

theorem encList_sparse_ge (E : Block → Block) (csz : Nat) :
    ∀ (l : List Chunk) (chain : Block) (o : Nat),
    ∀ e ∈ (encList E csz chain o l).2.1, o ≤ e := by
  intro l
  induction l with
  | nil => intro chain o e he; simp [encList] at he
  | cons c rest ih =>
    intro chain o e he
    by_cases hz : allZeroes c = true
    · simp only [encList, hz, if_true, List.mem_cons] at he
      rcases he with he | he
      · omega
      · exact le_trans (Nat.le_add_right o csz) (ih chain (o + csz) e he)
    · simp only [encList, hz, if_false, Bool.false_eq_true] at he
      exact le_trans (Nat.le_add_right o csz) (ih (cbcEnc E chain c).2 (o + csz) e he)

theorem encList_length (E : Block → Block) (csz : Nat) :
    ∀ (l : List Chunk) (chain : Block) (o : Nat),
    (encList E csz chain o l).1.length = l.length := by
  intro l
  induction l with
  | nil => intro chain o; simp [encList]
  | cons c rest ih =>
    intro chain o
    by_cases hz : allZeroes c = true <;> simp [encList, hz, ih]

theorem decList_cons_lt (Dc : Block → Block) (csz : Nat) (x o : Nat) (hx : x < o)
    (sp : List Nat) (l : List Chunk) (chain : Block) :
    decList Dc csz chain o (x :: sp) l = decList Dc csz chain o sp l := by
  cases l with
  | nil => rfl
  | cons c rest => simp [decList, List.dropWhile_cons, hx]

theorem decList_nil_sparse (Dc : Block → Block) (csz : Nat) :
    ∀ (l : List Chunk) (chain : Block) (o : Nat),
    (decList Dc csz chain o [] l).1 = cbcDecAll Dc chain l := by
  intro l
  induction l with
  | nil => intro chain o; simp [decList, cbcDecAll]
  | cons c rest ih =>
    intro chain o
    simp [decList, cbcDecAll, List.dropWhile_nil, ih]

theorem decList_encList (E Dc : Block → Block) (hED : ∀ b, Dc (E b) = b)
    (csz : Nat) (h0 : 0 < csz) :
    ∀ (l : List Chunk) (chain : Block) (o : Nat),
    decList Dc csz chain o (encList E csz chain o l).2.1 (encList E csz chain o l).1
      = (l, (encList E csz chain o l).2.2) := by
  intro l
  induction l with
  | nil => intro chain o; simp [encList, decList]
  | cons c rest ih =>
    intro chain o
    by_cases hz : allZeroes c = true
    · simp only [encList, hz, if_true]
      have hdw : ((o :: (encList E csz chain (o + csz) rest).2.1).dropWhile
          (fun e => decide (e < o))) = o :: (encList E csz chain (o + csz) rest).2.1 := by
        simp [List.dropWhile_cons]
      simp only [decList, hdw, List.head?_cons, if_pos rfl]
      rw [decList_cons_lt Dc csz o (o + csz) (by omega)]
      rw [ih chain (o + csz)]
      simp
    · simp only [encList, hz, if_false, Bool.false_eq_true]
      have hge : ∀ e ∈ (encList E csz (cbcEnc E chain c).2 (o + csz) rest).2.1, o ≤ e := by
        intro e he
        exact le_trans (Nat.le_add_right o csz)
          (encList_sparse_ge E csz rest (cbcEnc E chain c).2 (o + csz) e he)
      have hdw : ((encList E csz (cbcEnc E chain c).2 (o + csz) rest).2.1.dropWhile
          (fun e => decide (e < o)))
          = (encList E csz (cbcEnc E chain c).2 (o + csz) rest).2.1 :=
        dropWhile_of_ge o _ hge
      have hhead : ¬ ((encList E csz (cbcEnc E chain c).2 (o + csz) rest).2.1.head? = some o) := by
        cases hS : (encList E csz (cbcEnc E chain c).2 (o + csz) rest).2.1 with
        | nil => simp
        | cons x xs =>
          have hx : o + csz ≤ x := by
            have := encList_sparse_ge E csz rest (cbcEnc E chain c).2 (o + csz) x
            rw [hS] at this
            exact this (by simp)
          simp only [List.head?_cons, Option.some_inj]
          omega
      simp only [decList, hdw, if_neg hhead]
      rw [cbcDec_cbcEnc E Dc hED c chain]
      simp only
      rw [ih (cbcEnc E chain c).2 (o + csz)]

theorem stageErase_of_lookup_none : ∀ (st : List (Mode × Nat × Chunk)) (m : Mode) (o : Nat),
    stageLookup st m o = none → stageErase st m o = st := by
  intro st
  induction st with
  | nil => intro m o _; rfl
  | cons e rest ih =>
    intro m o h
    obtain ⟨m', o', c⟩ := e
    by_cases hc : m' = m ∧ o' = o
    · simp [stageLookup, hc] at h
    · simp only [stageLookup, hc, if_neg hc] at h
      simp [stageErase, hc, ih m o h]

theorem getD_append_length (pre suf : List Chunk) (x : Chunk) :
    (pre ++ suf).getD pre.length x = suf.getD 0 x := by
  induction pre with
  | nil => rfl
  | cons a l ih => simpa using ih

theorem set_append_length (pre suf : List Chunk) (c : Chunk) :
    (pre ++ suf).set pre.length c = pre ++ suf.set 0 c := by
  induction pre with
  | nil => rfl
  | cons a l ih => simp [ih]

theorem runLoop_enc (cfg : Cfg) (hm : cfg.mode = Mode.enc) (h0 : 0 < cfg.chunkSize) :
    ∀ (suf pre : List Chunk) (sp : List Nat) (chain : Block) (oD : Option Nat)
      (cur : List Nat) (hk hi : Bool),
    (∀ c ∈ suf, 16 * c.length = cfg.chunkSize) →
    (runLoop cfg suf.length
        ⟨⟨pre ++ suf, hk, hi, some (pre.length * cfg.chunkSize), oD, some sp, []⟩,
          pre.length * cfg.chunkSize, chain, cur⟩).2.2
      = Except.ok
          ⟨⟨pre ++ (if cfg.dryRun then suf
              else (encList cfg.E cfg.chunkSize chain (pre.length * cfg.chunkSize) suf).1),
            hk, hi, some ((pre ++ suf).length * cfg.chunkSize), oD,
            some (sp ++ (encList cfg.E cfg.chunkSize chain (pre.length * cfg.chunkSize) suf).2.1),
            []⟩,
            (pre ++ suf).length * cfg.chunkSize,
            (encList cfg.E cfg.chunkSize chain (pre.length * cfg.chunkSize) suf).2.2, cur⟩ := by
  intro suf
  induction suf with
  | nil =>
    intro pre sp chain oD cur hk hi _
    simp [runLoop, encList]
  | cons c rest ih =>
    intro pre sp chain oD cur hk hi hwf
    have hdiv : pre.length * cfg.chunkSize / cfg.chunkSize = pre.length :=
      Nat.mul_div_cancel pre.length h0
    have hgetD : (pre ++ c :: rest).getD pre.length ([] : Chunk) = c := by
      rw [getD_append_length]; rfl
    have hlen16 : 16 * c.length = cfg.chunkSize := hwf c (by simp)
    have hwr : ∀ x ∈ rest, 16 * x.length = cfg.chunkSize := fun x hx => hwf x (by simp [hx])
    have e3 : pre.length * cfg.chunkSize + cfg.chunkSize
        = (pre ++ [c]).length * cfg.chunkSize := by
      simp [Nat.succ_mul]
    by_cases hz : allZeroes c = true
    · cases hdry : cfg.dryRun <;>
      · simp only [List.length_cons, runLoop, stepChunk, stageLookup, sparseDecide, hm, hdiv,
          hgetD, hz, if_true, stepSparseEnc, Disk.setOffFile, Option.getD_some, encList, hdry]
        rw [show pre ++ c :: rest = (pre ++ [c]) ++ rest by simp]
        rw [e3]
        rw [ih (pre ++ [c]) (sp ++ [pre.length * cfg.chunkSize]) chain oD cur hk hi hwr]
        simp [Nat.succ_mul, hdry]
    · have e3' : pre.length * cfg.chunkSize + cfg.chunkSize
          = (pre ++ [(cbcEnc cfg.E chain c).1]).length * cfg.chunkSize := by
        simp [Nat.succ_mul]
      cases hdry : cfg.dryRun
      · simp only [List.length_cons, runLoop, stepChunk, stageLookup, sparseDecide, hm, hdiv,
          hgetD, hz, Bool.false_eq_true, if_false, stepTransform, EVPUpdateWrapper,
          cbcEnc_length, hlen16, Disk.setOffFile, hdry, stageErase, set_append_length,
          List.set_cons_zero, encList, ne_eq, not_true_eq_false, and_self, if_true,
          eq_self_iff_true]
        rw [show pre ++ (cbcEnc cfg.E chain c).1 :: rest
            = (pre ++ [(cbcEnc cfg.E chain c).1]) ++ rest by simp]
        rw [e3']
        rw [ih (pre ++ [(cbcEnc cfg.E chain c).1]) sp (cbcEnc cfg.E chain c).2 oD cur hk hi hwr]
        simp [Nat.succ_mul, hdry]
      · simp only [List.length_cons, runLoop, stepChunk, stageLookup, sparseDecide, hm, hdiv,
          hgetD, hz, Bool.false_eq_true, if_false, stepTransform, EVPUpdateWrapper,
          cbcEnc_length, hlen16, Disk.setOffFile, hdry, stageErase, encList, ne_eq,
          not_true_eq_false, and_self, if_true, eq_self_iff_true]
        rw [show pre ++ c :: rest = (pre ++ [c]) ++ rest by simp]
        rw [e3]
        rw [ih (pre ++ [c]) sp (cbcEnc cfg.E chain c).2 oD cur hk hi hwr]
        simp [Nat.succ_mul, hdry]

theorem runLoop_dec (cfg : Cfg) (hm : cfg.mode = Mode.dec) (h0 : 0 < cfg.chunkSize) :
    ∀ (suf pre : List Chunk) (sp : List Nat) (chain : Block) (oE : Option Nat)
      (cur : List Nat) (hk hi : Bool),
    (∀ c ∈ suf, 16 * c.length = cfg.chunkSize) →
    ∃ curF,
    (runLoop cfg suf.length
        ⟨⟨pre ++ suf, hk, hi, oE, some (pre.length * cfg.chunkSize), some sp, []⟩,
          pre.length * cfg.chunkSize, chain, cur⟩).2.2
      = Except.ok
          ⟨⟨pre ++ (if cfg.dryRun then suf
              else (decList cfg.D cfg.chunkSize chain (pre.length * cfg.chunkSize) cur suf).1),
            hk, hi, oE, some ((pre ++ suf).length * cfg.chunkSize), some sp, []⟩,
            (pre ++ suf).length * cfg.chunkSize,
            (decList cfg.D cfg.chunkSize chain (pre.length * cfg.chunkSize) cur suf).2, curF⟩ := by
  intro suf
  induction suf with
  | nil =>
    intro pre sp chain oE cur hk hi _
    exact ⟨cur, by simp [runLoop, decList]⟩
  | cons c rest ih =>
    intro pre sp chain oE cur hk hi hwf
    have hdiv : pre.length * cfg.chunkSize / cfg.chunkSize = pre.length :=
      Nat.mul_div_cancel pre.length h0
    have hgetD : (pre ++ c :: rest).getD pre.length ([] : Chunk) = c := by
      rw [getD_append_length]; rfl
    have hlen16 : 16 * c.length = cfg.chunkSize := hwf c (by simp)
    have hwr : ∀ x ∈ rest, 16 * x.length = cfg.chunkSize := fun x hx => hwf x (by simp [hx])
    have e3 : pre.length * cfg.chunkSize + cfg.chunkSize
        = (pre ++ [c]).length * cfg.chunkSize := by
      simp [Nat.succ_mul]
    by_cases hsp : (cur.dropWhile
        (fun e => decide (e < pre.length * cfg.chunkSize))).head? = some (pre.length * cfg.chunkSize)
    · obtain ⟨curF, hF⟩ := ih (pre ++ [c]) sp chain oE
        (cur.dropWhile (fun e => decide (e < pre.length * cfg.chunkSize))) hk hi hwr
      refine ⟨curF, ?_⟩
      simp only [List.length_cons, runLoop, stepChunk, stageLookup, sparseDecide, hm,
        stepSparseDec, Disk.setOffFile, hsp, beq_self_eq_true, if_true, decList, if_pos hsp]
      rw [show pre ++ c :: rest = (pre ++ [c]) ++ rest by simp]
      rw [e3]
      rw [hF]
      simp [Nat.succ_mul]
      cases hdry : cfg.dryRun <;> simp [hdry]
    · have hspb : ((cur.dropWhile
          (fun e => decide (e < pre.length * cfg.chunkSize))).head?
            == some (pre.length * cfg.chunkSize)) = false := by
        simp [hsp]
      cases hdry : cfg.dryRun
      · obtain ⟨curF, hF⟩ := ih (pre ++ [(cbcDec cfg.D chain c).1]) sp (cbcDec cfg.D chain c).2 oE
          (cur.dropWhile (fun e => decide (e < pre.length * cfg.chunkSize))) hk hi hwr
        refine ⟨curF, ?_⟩
        have e3' : pre.length * cfg.chunkSize + cfg.chunkSize
            = (pre ++ [(cbcDec cfg.D chain c).1]).length * cfg.chunkSize := by
          simp [Nat.succ_mul]
        simp only [List.length_cons, runLoop, stepChunk, stageLookup, sparseDecide, hm,
          hspb, Bool.false_eq_true, if_false, stepTransform, EVPUpdateWrapper,
          cbcDec_length, hlen16, hdiv, hgetD, Disk.setOffFile, hdry, stageErase,
          set_append_length, List.set_cons_zero, decList, if_neg hsp, ne_eq,
          not_true_eq_false, and_self, if_true, eq_self_iff_true]
        rw [show pre ++ (cbcDec cfg.D chain c).1 :: rest
            = (pre ++ [(cbcDec cfg.D chain c).1]) ++ rest by simp]
        rw [e3']
        rw [hF]
        simp [Nat.succ_mul, hdry]
      · obtain ⟨curF, hF⟩ := ih (pre ++ [c]) sp (cbcDec cfg.D chain c).2 oE
          (cur.dropWhile (fun e => decide (e < pre.length * cfg.chunkSize))) hk hi hwr
        refine ⟨curF, ?_⟩
        simp only [List.length_cons, runLoop, stepChunk, stageLookup, sparseDecide, hm,
          hspb, Bool.false_eq_true, if_false, stepTransform, EVPUpdateWrapper,
          cbcDec_length, hlen16, hdiv, hgetD, Disk.setOffFile, hdry, stageErase,
          decList, if_neg hsp, ne_eq, not_true_eq_false, and_self, if_true,
          eq_self_iff_true]
        rw [show pre ++ c :: rest = (pre ++ [c]) ++ rest by simp]
        rw [e3]
        rw [hF]
        simp [Nat.succ_mul, hdry]

theorem validateSizes_ok (csz n : Nat) (h16 : csz % 16 = 0) (h0 : 0 < csz) :
    validateSizes csz (n * csz) = Except.ok () := by
  simp [validateSizes, h16, Nat.pos_iff_ne_zero.mp h0, Nat.mul_mod_left]

theorem ensureKeys_enc (dev : List Chunk) (hk hi : Bool) (a b : Option Nat)
    (c : Option (List Nat)) (st : List (Mode × Nat × Chunk)) :
    ensureKeys Mode.enc ⟨dev, hk, hi, a, b, c, st⟩
      = ((if hi = false ∨ hk = false then [Ev.ivCreate, Ev.keyCreate] else []),
          Except.ok ⟨dev, true, true, a, b, c, st⟩) := by
  cases hk <;> cases hi <;> simp [ensureKeys]

theorem mainModel_enc (cfg : Cfg) (dev : List Chunk) (hk hi : Bool)
    (hm : cfg.mode = Mode.enc) (h16 : cfg.chunkSize % 16 = 0) (h0 : 0 < cfg.chunkSize)
    (hwf : ∀ c ∈ dev, 16 * c.length = cfg.chunkSize) (hne : dev ≠ []) :
    (mainModel cfg (freshDisk dev hk hi)).outcome = Outcome.success
    ∧ (mainModel cfg (freshDisk dev hk hi)).disk
        = ⟨(if cfg.dryRun then dev else (encList cfg.E cfg.chunkSize cfg.iv 0 dev).1),
            true, true, some (dev.length * cfg.chunkSize), none,
            some ((encList cfg.E cfg.chunkSize cfg.iv 0 dev).2.1), []⟩ := by
  have hlen0 : 0 < dev.length := by
    cases dev
    · exact absurd rfl hne
    · simp
  have hpos : ¬ (dev.length * cfg.chunkSize ≤ 0) := by
    have := Nat.mul_pos hlen0 h0
    omega
  have hloop := runLoop_enc cfg hm h0 dev [] [] cfg.iv none [] true true hwf
  simp only [List.nil_append, List.length_nil, Nat.zero_mul, List.append_nil] at hloop
  simp only [mainModel, freshDisk, validateSizes_ok cfg.chunkSize dev.length h16 h0,
    ensureKeys_enc, hm, Disk.offFile, Disk.setOffFile, Option.getD_some, hpos, if_false,
    Nat.zero_div, Nat.sub_zero, hloop]
  simp

theorem mainModel_enc_nil (cfg : Cfg) (hk hi : Bool)
    (hm : cfg.mode = Mode.enc) (h16 : cfg.chunkSize % 16 = 0) (h0 : 0 < cfg.chunkSize) :
    (mainModel cfg (freshDisk [] hk hi)).outcome = Outcome.alreadyDone
    ∧ (mainModel cfg (freshDisk [] hk hi)).disk = ⟨[], true, true, some 0, none, none, []⟩ := by
  have hv : validateSizes cfg.chunkSize 0 = Except.ok () := by
    simpa using validateSizes_ok cfg.chunkSize 0 h16 h0
  simp [mainModel, freshDisk, hv, ensureKeys_enc, hm, Disk.offFile, Disk.setOffFile]

theorem mainModel_dec (cfg : Cfg) (dev : List Chunk) (oE : Option Nat)
    (spo : Option (List Nat))
    (hm : cfg.mode = Mode.dec) (h16 : cfg.chunkSize % 16 = 0) (h0 : 0 < cfg.chunkSize)
    (hwf : ∀ c ∈ dev, 16 * c.length = cfg.chunkSize) (hne : dev ≠ []) :
    (mainModel cfg ⟨dev, true, true, oE, none, spo, []⟩).outcome = Outcome.success
    ∧ (mainModel cfg ⟨dev, true, true, oE, none, spo, []⟩).disk
        = ⟨(if cfg.dryRun then dev
            else (decList cfg.D cfg.chunkSize cfg.iv 0 (spo.getD []) dev).1),
            true, true, oE, some (dev.length * cfg.chunkSize),
            some (spo.getD []), []⟩ := by
  have hlen0 : 0 < dev.length := by
    cases dev
    · exact absurd rfl hne
    · simp
  have hpos : ¬ (dev.length * cfg.chunkSize ≤ 0) := by
    have := Nat.mul_pos hlen0 h0
    omega
  obtain ⟨curF, hloop⟩ := runLoop_dec cfg hm h0 dev [] (spo.getD []) cfg.iv oE
    (spo.getD []) true true hwf
  simp only [List.nil_append, List.length_nil, Nat.zero_mul, List.append_nil] at hloop
  cases spo with
  | none =>
    simp only [Option.getD_none] at hloop
    simp only [mainModel, validateSizes_ok cfg.chunkSize dev.length h16 h0,
      ensureKeys, Bool.false_eq_true, or_self, if_false, hm, Disk.offFile,
      Disk.setOffFile, Option.getD_some, hpos, Nat.zero_div, Nat.sub_zero,
      Option.getD_none, hloop]
    simp [hne, Nat.pos_iff_ne_zero.mp h0, hloop]
  | some sp =>
    simp only [Option.getD_some] at hloop
    simp only [mainModel, validateSizes_ok cfg.chunkSize dev.length h16 h0,
      ensureKeys, Bool.false_eq_true, or_self, if_false, hm, Disk.offFile,
      Disk.setOffFile, Option.getD_some, hpos, Nat.zero_div, Nat.sub_zero, hloop]
    simp [hne, Nat.pos_iff_ne_zero.mp h0, hloop]

theorem mainModel_alreadyDone (cfg : Cfg) (d : Disk)
    (h16 : cfg.chunkSize % 16 = 0) (h0 : 0 < cfg.chunkSize)
    (hk : d.hasKey = true) (hi : d.hasIv = true)
    (hsz : d.device.length * cfg.chunkSize ≤ (d.offFile cfg.mode).getD 0) :
    (mainModel cfg d).outcome = Outcome.alreadyDone
    ∧ (mainModel cfg d).disk.device = d.device
    ∧ (mainModel cfg d).trace
        = [Ev.cipherInit] ++ (if d.offFile cfg.mode = none then [Ev.offsetCreate] else [])
    ∧ (mainModel cfg d).snaps = [] := by
  cases hoff : d.offFile cfg.mode with
  | none =>
    rw [hoff] at hsz
    simp only [Option.getD_none, Nat.le_zero] at hsz
    have hv0 : validateSizes cfg.chunkSize 0 = Except.ok () := by
      simpa using validateSizes_ok cfg.chunkSize 0 h16 h0
    cases hmm : cfg.mode <;>
    · rw [hmm] at hoff
      simp only [Disk.offFile] at hoff
      simp [mainModel, hsz, hv0, ensureKeys, hk, hi, hmm, Disk.offFile, hoff, Disk.setOffFile]
  | some v =>
    rw [hoff] at hsz
    simp only [Option.getD_some] at hsz
    simp [mainModel, validateSizes_ok cfg.chunkSize d.device.length h16 h0,
      ensureKeys, hk, hi, hoff, hsz]

theorem encList_mem_length (E : Block → Block) (csz : Nat) :
    ∀ (l : List Chunk) (chain : Block) (o : Nat),
    ∀ c' ∈ (encList E csz chain o l).1, ∃ c ∈ l, c'.length = c.length := by
  intro l
  induction l with
  | nil => intro chain o c' hc'; simp [encList] at hc'
  | cons c rest ih =>
    intro chain o c' hc'
    by_cases hz : allZeroes c = true
    · simp only [encList, hz, if_true, List.mem_cons] at hc'
      rcases hc' with hc' | hc'
      · exact ⟨c, by simp, by rw [hc']⟩
      · obtain ⟨x, hx, hlen⟩ := ih chain (o + csz) c' hc'
        exact ⟨x, by simp [hx], hlen⟩
    · simp only [encList, hz, if_false, Bool.false_eq_true, List.mem_cons] at hc'
      rcases hc' with hc' | hc'
      · exact ⟨c, by simp, by rw [hc']; exact cbcEnc_length E c chain⟩
      · obtain ⟨x, hx, hlen⟩ := ih (cbcEnc E chain c).2 (o + csz) c' hc'
        exact ⟨x, by simp [hx], hlen⟩

/-- C2: for every device content of N chunks (any N, covering N in
0, 1, 2, 64, 1024) and every chunk size that is a positive multiple of 16
(covering 16, 64, 4096, 65536), with freshly generated key material, an
uninterrupted encrypt run followed by an uninterrupted decrypt run exits 0
twice and restores the original device contents. -/
theorem C2_roundtrip (csz : Nat) (dev : List Chunk) (E Dc : Block → Block) (iv : Block)
    (h16 : csz % 16 = 0) (h0 : 0 < csz)
    (hwf : ∀ c ∈ dev, 16 * c.length = csz)
    (hED : ∀ b, Dc (E b) = b) :
    Outcome.exitCode
        (mainModel ⟨Mode.enc, false, csz, E, Dc, iv⟩ (freshDisk dev false false)).outcome = 0
    ∧ Outcome.exitCode (mainModel ⟨Mode.dec, false, csz, E, Dc, iv⟩
        (mainModel ⟨Mode.enc, false, csz, E, Dc, iv⟩ (freshDisk dev false false)).disk).outcome = 0
    ∧ (mainModel ⟨Mode.dec, false, csz, E, Dc, iv⟩
        (mainModel ⟨Mode.enc, false, csz, E, Dc, iv⟩ (freshDisk dev false false)).disk).disk.device
      = dev := by
  by_cases hne : dev = []
  · subst hne
    obtain ⟨ho, hd⟩ := mainModel_enc_nil ⟨Mode.enc, false, csz, E, Dc, iv⟩ false false rfl h16 h0
    rw [hd]
    obtain ⟨ho2, hd2, _, _⟩ := mainModel_alreadyDone ⟨Mode.dec, false, csz, E, Dc, iv⟩
      ⟨[], true, true, some 0, none, none, []⟩ h16 h0 rfl rfl (by simp [Disk.offFile])
    rw [ho, ho2, hd2]
    exact ⟨rfl, rfl, rfl⟩
  · obtain ⟨ho, hd⟩ := mainModel_enc ⟨Mode.enc, false, csz, E, Dc, iv⟩ dev false false
      rfl h16 h0 hwf hne
    have hd' : (mainModel ⟨Mode.enc, false, csz, E, Dc, iv⟩ (freshDisk dev false false)).disk
        = ⟨(encList E csz iv 0 dev).1, true, true, some (dev.length * csz), none,
            some ((encList E csz iv 0 dev).2.1), []⟩ := by
      rw [hd]
      simp
    rw [hd']
    have hwf2 : ∀ c ∈ (encList E csz iv 0 dev).1, 16 * c.length = csz := by
      intro c' hc'
      obtain ⟨c, hc, hlen⟩ := encList_mem_length E csz dev iv 0 c' hc'
      rw [hlen]
      exact hwf c hc
    have hne2 : (encList E csz iv 0 dev).1 ≠ [] := by
      have hl := encList_length E csz dev iv 0
      intro hcon
      rw [hcon] at hl
      exact hne (List.eq_nil_of_length_eq_zero hl.symm)
    obtain ⟨ho2, hd2⟩ := mainModel_dec ⟨Mode.dec, false, csz, E, Dc, iv⟩
      (encList E csz iv 0 dev).1 (some (dev.length * csz)) (some ((encList E csz iv 0 dev).2.1))
      rfl h16 h0 hwf2 hne2
    have hd2' : (mainModel ⟨Mode.dec, false, csz, E, Dc, iv⟩
          ⟨(encList E csz iv 0 dev).1, true, true, some (dev.length * csz), none,
            some ((encList E csz iv 0 dev).2.1), []⟩).disk
        = ⟨(decList Dc csz iv 0 ((encList E csz iv 0 dev).2.1) (encList E csz iv 0 dev).1).1,
            true, true, some (dev.length * csz),
            some ((encList E csz iv 0 dev).1.length * csz),
            some ((encList E csz iv 0 dev).2.1), []⟩ := by
      rw [hd2]
      simp
    rw [ho, ho2, hd2']
    refine ⟨rfl, rfl, ?_⟩
    rw [decList_encList E Dc hED csz h0 dev iv 0]

/-- Corrected form of C4: after a dry-run encrypt over any nonempty device
of aligned chunks, the device contents are unchanged and enc_offset is
advanced to the full device size, but no staging files remain: every stage
file is created, fsynced and then unlinked after the offset advance, dry
run or not (src lines 408-412 do not consult dryRun). -/
theorem C4_amended (csz : Nat) (dev : List Chunk) (E Dc : Block → Block) (iv : Block)
    (h16 : csz % 16 = 0) (h0 : 0 < csz)
    (hwf : ∀ c ∈ dev, 16 * c.length = csz) (hne : dev ≠ []) :
    (mainModel ⟨Mode.enc, true, csz, E, Dc, iv⟩ (freshDisk dev true true)).disk.device = dev
    ∧ (mainModel ⟨Mode.enc, true, csz, E, Dc, iv⟩ (freshDisk dev true true)).disk.offEnc
        = some (dev.length * csz)
    ∧ (mainModel ⟨Mode.enc, true, csz, E, Dc, iv⟩ (freshDisk dev true true)).disk.stages = [] := by
  obtain ⟨ho, hd⟩ := mainModel_enc ⟨Mode.enc, true, csz, E, Dc, iv⟩ dev true true
    rfl h16 h0 hwf hne
  rw [hd]
  exact ⟨rfl, rfl, rfl⟩

/-- Witness for C4_amended at a concrete two-chunk device. -/
theorem C4_amended_witness :
    (mainModel ⟨Mode.enc, true, 16, xorP, xorP, 3⟩ (freshDisk [[1], [2]] true true)).disk.device
        = [[1], [2]]
    ∧ (mainModel ⟨Mode.enc, true, 16, xorP, xorP, 3⟩ (freshDisk [[1], [2]] true true)).disk.offEnc
        = some 32
    ∧ (mainModel ⟨Mode.enc, true, 16, xorP, xorP, 3⟩ (freshDisk [[1], [2]] true true)).disk.stages
        = [] :=
  C4_amended 16 [[1], [2]] xorP xorP 3 (by decide) (by decide) (by decide) (by decide)

/-- Counterexample to C4 as stated: on a two-chunk device, a completed
dry-run encrypt leaves the device unchanged and enc_offset advanced to the
full size, but the set of staging files in the working directory is empty,
because the unlink after the offset advance (src lines 408-412) runs in
dry-run mode too; the claim asserts the staging files are present. -/
theorem C4_counterexample :
    (mainModel ⟨Mode.enc, true, 16, xorP, xorP, 3⟩ (freshDisk [[1], [2]] true true)).outcome
        = Outcome.success
    ∧ (mainModel ⟨Mode.enc, true, 16, xorP, xorP, 3⟩ (freshDisk [[1], [2]] true true)).disk.device
        = [[1], [2]]
    ∧ (mainModel ⟨Mode.enc, true, 16, xorP, xorP, 3⟩ (freshDisk [[1], [2]] true true)).disk.offEnc
        = some 32
    ∧ ¬ (mainModel ⟨Mode.enc, true, 16, xorP, xorP, 3⟩
          (freshDisk [[1], [2]] true true)).disk.stages ≠ [] := by
  decide

/-- C10: a decrypt run over a nonempty device whose working directory has
no enc_sparse file does not fail: it creates enc_sparse as an empty file,
exits successfully, and treats every chunk as non-sparse, feeding the
whole device through the cipher. -/
theorem C10_missing_sparse (csz : Nat) (dev : List Chunk) (E Dc : Block → Block) (iv : Block)
    (h16 : csz % 16 = 0) (h0 : 0 < csz)
    (hwf : ∀ c ∈ dev, 16 * c.length = csz) (hne : dev ≠ []) :
    (mainModel ⟨Mode.dec, false, csz, E, Dc, iv⟩ (freshDisk dev true true)).outcome
        = Outcome.success
    ∧ (mainModel ⟨Mode.dec, false, csz, E, Dc, iv⟩ (freshDisk dev true true)).disk.sparse
        = some []
    ∧ (mainModel ⟨Mode.dec, false, csz, E, Dc, iv⟩ (freshDisk dev true true)).disk.device
        = cbcDecAll Dc iv dev := by
  obtain ⟨ho, hd⟩ := mainModel_dec ⟨Mode.dec, false, csz, E, Dc, iv⟩ dev none none
    rfl h16 h0 hwf hne
  simp only [if_false, Bool.false_eq_true, Option.getD_none] at hd
  refine ⟨ho, ?_, ?_⟩
  · rw [show (freshDisk dev true true) = ⟨dev, true, true, none, none, none, []⟩ from rfl, hd]
  · rw [show (freshDisk dev true true) = ⟨dev, true, true, none, none, none, []⟩ from rfl, hd]
    simp [decList_nil_sparse]

/-- Witness for C10_missing_sparse at a concrete two-chunk device. -/
theorem C10_missing_sparse_witness :
    (mainModel ⟨Mode.dec, false, 16, xorP, xorP, 3⟩ (freshDisk [[3], [9]] true true)).outcome
        = Outcome.success
    ∧ (mainModel ⟨Mode.dec, false, 16, xorP, xorP, 3⟩ (freshDisk [[3], [9]] true true)).disk.sparse
        = some []
    ∧ (mainModel ⟨Mode.dec, false, 16, xorP, xorP, 3⟩ (freshDisk [[3], [9]] true true)).disk.device
        = cbcDecAll xorP 3 [[3], [9]] :=
  C10_missing_sparse 16 [[3], [9]] xorP xorP 3 (by decide) (by decide) (by decide) (by decide)

theorem xorP_invol : ∀ b, xorP (xorP b) = b := by
  intro b
  simp [xorP, Nat.xor_assoc]

/-- Witness for C2_roundtrip at a concrete two-chunk device whose first
chunk is sparse. -/
theorem C2_roundtrip_witness :
    Outcome.exitCode
        (mainModel ⟨Mode.enc, false, 16, xorP, xorP, 3⟩
          (freshDisk [[0], [5]] false false)).outcome = 0
    ∧ Outcome.exitCode (mainModel ⟨Mode.dec, false, 16, xorP, xorP, 3⟩
        (mainModel ⟨Mode.enc, false, 16, xorP, xorP, 3⟩
          (freshDisk [[0], [5]] false false)).disk).outcome = 0
    ∧ (mainModel ⟨Mode.dec, false, 16, xorP, xorP, 3⟩
        (mainModel ⟨Mode.enc, false, 16, xorP, xorP, 3⟩
          (freshDisk [[0], [5]] false false)).disk).disk.device
      = [[0], [5]] :=
  C2_roundtrip 16 [[0], [5]] xorP xorP 3 (by decide) (by decide) (by decide) xorP_invol

/-- C3: on encrypt, a chunk with no stage file whose plaintext is all
zero takes the sparse path: the cipher is not invoked (no cipherUpdate
event and the CBC chaining block is unchanged), the device is untouched
and the offset is appended to enc_sparse; on decrypt, a chunk the sparse
cursor marks sparse is likewise left untouched with no cipher advance. -/
theorem C3_sparse_chunk (cfgA : Cfg) (s : RS) (cfgB : Cfg) (t : RS)
    (hmA : cfgA.mode = Mode.enc)
    (hstA : stageLookup s.disk.stages cfgA.mode s.offset = none)
    (hz : allZeroes (s.disk.device.getD (s.offset / cfgA.chunkSize) []) = true)
    (hmB : cfgB.mode = Mode.dec)
    (hstB : stageLookup t.disk.stages cfgB.mode t.offset = none)
    (hspB : (sparseDecide cfgB t).2 = true) :
    (∃ s', (stepChunk cfgA s).2.2 = Except.ok s'
      ∧ s'.chain = s.chain
      ∧ s'.disk.device = s.disk.device
      ∧ s'.disk.sparse = some (s.disk.sparse.getD [] ++ [s.offset])
      ∧ ∀ o, Ev.cipherUpdate o ∉ (stepChunk cfgA s).1)
    ∧ (∃ t', (stepChunk cfgB t).2.2 = Except.ok t'
      ∧ t'.chain = t.chain
      ∧ t'.disk.device = t.disk.device
      ∧ t'.disk.sparse = t.disk.sparse
      ∧ ∀ o, Ev.cipherUpdate o ∉ (stepChunk cfgB t).1) := by
  constructor
  · have hstA' : stageLookup s.disk.stages Mode.enc s.offset = none := hmA ▸ hstA
    have hstep : stepChunk cfgA s = stepSparseEnc cfgA s := by
      simp only [stepChunk, hmA, hstA', sparseDecide, hz, if_true]
    rw [hstep]
    refine ⟨_, rfl, ?_, ?_, ?_, ?_⟩
    · simp [stepSparseEnc]
    · simp [stepSparseEnc, hmA, Disk.setOffFile]
    · simp [stepSparseEnc, hmA, Disk.setOffFile]
    · intro o
      simp [stepSparseEnc]
  · have hstB' : stageLookup t.disk.stages Mode.dec t.offset = none := hmB ▸ hstB
    have hstep : stepChunk cfgB t = stepSparseDec cfgB t (sparseDecide cfgB t).1 := by
      simp only [stepChunk, hmB, hstB', hspB, eq_self_iff_true, if_true]
    rw [hstep]
    refine ⟨_, rfl, ?_, ?_, ?_, ?_⟩
    · simp [stepSparseDec]
    · simp [stepSparseDec, hmB, Disk.setOffFile]
    · simp [stepSparseDec, hmB, Disk.setOffFile]
    · intro o
      simp [stepSparseDec]

/-- Witness for C3_sparse_chunk at concrete one-chunk states. -/
theorem C3_sparse_chunk_witness :
    (∃ s', (stepChunk ⟨Mode.enc, false, 16, xorP, xorP, 3⟩
          ⟨⟨[[0]], true, true, some 0, none, some [], []⟩, 0, 3, []⟩).2.2 = Except.ok s'
      ∧ s'.chain = 3
      ∧ s'.disk.device = [[0]]
      ∧ s'.disk.sparse = some ((Option.getD (some ([] : List Nat)) []) ++ [0])
      ∧ ∀ o, Ev.cipherUpdate o ∉ (stepChunk ⟨Mode.enc, false, 16, xorP, xorP, 3⟩
          ⟨⟨[[0]], true, true, some 0, none, some [], []⟩, 0, 3, []⟩).1)
    ∧ (∃ t', (stepChunk ⟨Mode.dec, false, 16, xorP, xorP, 3⟩
          ⟨⟨[[0]], true, true, none, some 0, some [0], []⟩, 0, 3, [0]⟩).2.2 = Except.ok t'
      ∧ t'.chain = 3
      ∧ t'.disk.device = [[0]]
      ∧ t'.disk.sparse = some [0]
      ∧ ∀ o, Ev.cipherUpdate o ∉ (stepChunk ⟨Mode.dec, false, 16, xorP, xorP, 3⟩
          ⟨⟨[[0]], true, true, none, some 0, some [0], []⟩, 0, 3, [0]⟩).1) :=
  C3_sparse_chunk ⟨Mode.enc, false, 16, xorP, xorP, 3⟩
    ⟨⟨[[0]], true, true, some 0, none, some [], []⟩, 0, 3, []⟩
    ⟨Mode.dec, false, 16, xorP, xorP, 3⟩
    ⟨⟨[[0]], true, true, none, some 0, some [0], []⟩, 0, 3, [0]⟩
    rfl (by decide) (by decide) rfl (by decide) (by decide)

/-- C6: for a chunk on the transform path with dryRun off, the stage-file
fsync precedes the device write, the device fsync precedes the OffsetLog
fsync, and the OffsetLog fsync precedes the stage-file unlink; for a
sparse chunk on encrypt, the SparseLog fsync precedes the OffsetLog
fsync. -/
theorem C6_ordering (cfgA : Cfg) (s : RS) (cfgB : Cfg) (t : RS)
    (hdryA : cfgA.dryRun = false)
    (hstA : stageLookup s.disk.stages cfgA.mode s.offset = none)
    (hnspA : (sparseDecide cfgA s).2 = false)
    (hlenA : 16 * (s.disk.device.getD (s.offset / cfgA.chunkSize) []).length = cfgA.chunkSize)
    (hmB : cfgB.mode = Mode.enc)
    (hstB : stageLookup t.disk.stages cfgB.mode t.offset = none)
    (hzB : allZeroes (t.disk.device.getD (t.offset / cfgB.chunkSize) []) = true) :
    (evBefore (stepChunk cfgA s).1 (Ev.stageFsync cfgA.mode s.offset) (Ev.devWrite s.offset)
      ∧ evBefore (stepChunk cfgA s).1 (Ev.devFsync s.offset)
          (Ev.offsetFsync (s.offset + cfgA.chunkSize))
      ∧ evBefore (stepChunk cfgA s).1 (Ev.offsetFsync (s.offset + cfgA.chunkSize))
          (Ev.unlinkStage cfgA.mode s.offset))
    ∧ evBefore (stepChunk cfgB t).1 (Ev.sparseFsync t.offset)
        (Ev.offsetFsync (t.offset + cfgB.chunkSize)) := by
  have hlen' : 16 * (EVPUpdateWrapper cfgA s.chain
      (s.disk.device.getD (s.offset / cfgA.chunkSize) [])).1.length = cfgA.chunkSize := by
    rw [EVPUpdateWrapper_length]
    exact hlenA
  have htrA : (stepChunk cfgA s).1
      = [Ev.cipherUpdate s.offset, Ev.stageFsync cfgA.mode s.offset,
         Ev.devWrite s.offset, Ev.devFsync s.offset,
         Ev.offsetFsync (s.offset + cfgA.chunkSize), Ev.unlinkStage cfgA.mode s.offset] := by
    simp only [stepChunk, hstA, hnspA, Bool.false_eq_true, if_false, stepTransform, hlen',
      ne_eq, eq_self_iff_true, not_true_eq_false, if_false, hdryA, List.cons_append,
      List.nil_append, List.append_assoc]
  have htrB : (stepChunk cfgB t).1
      = [Ev.sparseFsync t.offset, Ev.offsetFsync (t.offset + cfgB.chunkSize)] := by
    have hstB' : stageLookup t.disk.stages Mode.enc t.offset = none := hmB ▸ hstB
    have hsp : (sparseDecide cfgB t).2 = true := by
      simp only [sparseDecide, hmB]
      exact hzB
    simp only [stepChunk, hmB, hstB', hsp, eq_self_iff_true, if_true, stepSparseEnc]
  refine ⟨⟨?_, ?_, ?_⟩, ?_⟩
  · exact ⟨1, 2, by omega, by rw [htrA]; rfl, by rw [htrA]; rfl⟩
  · exact ⟨3, 4, by omega, by rw [htrA]; rfl, by rw [htrA]; rfl⟩
  · exact ⟨4, 5, by omega, by rw [htrA]; rfl, by rw [htrA]; rfl⟩
  · exact ⟨0, 1, by omega, by rw [htrB]; rfl, by rw [htrB]; rfl⟩

/-- Witness for C6_ordering at concrete one-chunk states. -/
theorem C6_ordering_witness :
    (evBefore (stepChunk ⟨Mode.enc, false, 16, xorP, xorP, 3⟩
        ⟨⟨[[1]], true, true, some 0, none, some [], []⟩, 0, 3, []⟩).1
        (Ev.stageFsync Mode.enc 0) (Ev.devWrite 0)
      ∧ evBefore (stepChunk ⟨Mode.enc, false, 16, xorP, xorP, 3⟩
          ⟨⟨[[1]], true, true, some 0, none, some [], []⟩, 0, 3, []⟩).1
          (Ev.devFsync 0) (Ev.offsetFsync (0 + 16))
      ∧ evBefore (stepChunk ⟨Mode.enc, false, 16, xorP, xorP, 3⟩
          ⟨⟨[[1]], true, true, some 0, none, some [], []⟩, 0, 3, []⟩).1
          (Ev.offsetFsync (0 + 16)) (Ev.unlinkStage Mode.enc 0))
    ∧ evBefore (stepChunk ⟨Mode.enc, false, 16, xorP, xorP, 3⟩
        ⟨⟨[[0]], true, true, some 0, none, some [], []⟩, 0, 3, []⟩).1
        (Ev.sparseFsync 0) (Ev.offsetFsync (0 + 16)) :=
  C6_ordering ⟨Mode.enc, false, 16, xorP, xorP, 3⟩
    ⟨⟨[[1]], true, true, some 0, none, some [], []⟩, 0, 3, []⟩
    ⟨Mode.enc, false, 16, xorP, xorP, 3⟩
    ⟨⟨[[0]], true, true, some 0, none, some [], []⟩, 0, 3, []⟩
    rfl (by decide) (by decide) (by decide) rfl (by decide) (by decide)

/-- Corrected form of C5: when the loaded offset is at least the device
size, the run prints "Already done" and exits 0, performs no cipher
update and no cipher finalisation, and writes no byte of the device;
however, the cipher context is created and initialised (EVPInitWrapper,
src lines 220-244) before the check, so a cipher operation does occur. -/
theorem C5_amended (cfg : Cfg) (d : Disk)
    (h16 : cfg.chunkSize % 16 = 0) (h0 : 0 < cfg.chunkSize)
    (hk : d.hasKey = true) (hi : d.hasIv = true)
    (hsz : d.device.length * cfg.chunkSize ≤ (d.offFile cfg.mode).getD 0) :
    (mainModel cfg d).outcome = Outcome.alreadyDone
    ∧ Outcome.exitCode (mainModel cfg d).outcome = 0
    ∧ (mainModel cfg d).disk.device = d.device
    ∧ (∀ o, Ev.cipherUpdate o ∉ (mainModel cfg d).trace)
    ∧ Ev.cipherFinal ∉ (mainModel cfg d).trace
    ∧ (∀ o, Ev.devWrite o ∉ (mainModel cfg d).trace) := by
  obtain ⟨ho, hd, ht, _⟩ := mainModel_alreadyDone cfg d h16 h0 hk hi hsz
  refine ⟨ho, by rw [ho]; rfl, hd, ?_, ?_, ?_⟩ <;>
  · rw [ht]
    cases d.offFile cfg.mode <;> simp

/-- Counterexample to C5 as stated: with the loaded offset equal to the
device size, the run does print "Already done" and exit 0, but the trace
contains the cipher initialisation performed at src lines 220-235 before
the check, contradicting the claim that no cipher operation is
performed. -/
theorem C5_counterexample :
    (mainModel ⟨Mode.enc, false, 16, xorP, xorP, 3⟩
        ⟨[[1]], true, true, some 16, none, none, []⟩).outcome = Outcome.alreadyDone
    ∧ Ev.cipherInit ∈ (mainModel ⟨Mode.enc, false, 16, xorP, xorP, 3⟩
        ⟨[[1]], true, true, some 16, none, none, []⟩).trace := by
  decide

/-- Witness for C5_amended at a concrete already-done state. -/
theorem C5_amended_witness :
    (mainModel ⟨Mode.enc, false, 16, xorP, xorP, 3⟩
        ⟨[[1]], true, true, some 16, none, none, []⟩).outcome = Outcome.alreadyDone
    ∧ Outcome.exitCode (mainModel ⟨Mode.enc, false, 16, xorP, xorP, 3⟩
        ⟨[[1]], true, true, some 16, none, none, []⟩).outcome = 0
    ∧ (mainModel ⟨Mode.enc, false, 16, xorP, xorP, 3⟩
        ⟨[[1]], true, true, some 16, none, none, []⟩).disk.device = [[1]]
    ∧ (∀ o, Ev.cipherUpdate o ∉ (mainModel ⟨Mode.enc, false, 16, xorP, xorP, 3⟩
        ⟨[[1]], true, true, some 16, none, none, []⟩).trace)
    ∧ Ev.cipherFinal ∉ (mainModel ⟨Mode.enc, false, 16, xorP, xorP, 3⟩
        ⟨[[1]], true, true, some 16, none, none, []⟩).trace
    ∧ (∀ o, Ev.devWrite o ∉ (mainModel ⟨Mode.enc, false, 16, xorP, xorP, 3⟩
        ⟨[[1]], true, true, some 16, none, none, []⟩).trace) :=
  C5_amended ⟨Mode.enc, false, 16, xorP, xorP, 3⟩
    ⟨[[1]], true, true, some 16, none, none, []⟩
    (by decide) (by decide) rfl rfl (by decide)

/-- C9: a decrypt run with .key or .iv absent fails with
MissingKeyMaterial and exit code 1, leaves the whole disk state
(device, key material, logs, stages) unchanged, and performs no
operation at all; in particular it never creates key material, which
only the encrypt branch of src lines 194-210 does. -/
theorem C9_missing_key (cfg : Cfg) (d : Disk)
    (hm : cfg.mode = Mode.dec)
    (h16 : cfg.chunkSize % 16 = 0) (h0 : 0 < cfg.chunkSize)
    (hmiss : d.hasIv = false ∨ d.hasKey = false) :
    (mainModel cfg d).outcome = Outcome.failure Err.missingKeyMaterial
    ∧ Outcome.exitCode (mainModel cfg d).outcome = 1
    ∧ (mainModel cfg d).disk = d
    ∧ (mainModel cfg d).trace = [] := by
  have hval := validateSizes_ok cfg.chunkSize d.device.length h16 h0
  simp [mainModel, hval, ensureKeys, if_pos hmiss, hm, Outcome.exitCode]

/-- Witness for C9_missing_key at a concrete state with .iv missing. -/
theorem C9_missing_key_witness :
    (mainModel ⟨Mode.dec, false, 16, xorP, xorP, 3⟩
        ⟨[[1]], true, false, none, none, none, []⟩).outcome
      = Outcome.failure Err.missingKeyMaterial
    ∧ Outcome.exitCode (mainModel ⟨Mode.dec, false, 16, xorP, xorP, 3⟩
        ⟨[[1]], true, false, none, none, none, []⟩).outcome = 1
    ∧ (mainModel ⟨Mode.dec, false, 16, xorP, xorP, 3⟩
        ⟨[[1]], true, false, none, none, none, []⟩).disk
      = ⟨[[1]], true, false, none, none, none, []⟩
    ∧ (mainModel ⟨Mode.dec, false, 16, xorP, xorP, 3⟩
        ⟨[[1]], true, false, none, none, none, []⟩).trace = [] :=
  C9_missing_key ⟨Mode.dec, false, 16, xorP, xorP, 3⟩
    ⟨[[1]], true, false, none, none, none, []⟩
    rfl (by decide) (by decide) (by decide)

/-- C8 evaluation at the failing input: chunk size 0 passes the alignment
check of src line 173 because 0 mod 16 is 0, and the device-size check of
src line 185 then evaluates size mod 0, which is undefined behaviour in
C++, instead of rejecting the run with a ConfigMismatch before touching
anything; a nonzero non-multiple of 16 is rejected as the claim says. -/
theorem C8_zero_chunkSize :
    (0 % 16 = 0)
    ∧ validateSizes 0 64 = Except.error Err.undefinedBehavior
    ∧ validateSizes 0 64 ≠ Except.error Err.configMismatch
    ∧ validateSizes 20 64 = Except.error Err.configMismatch := by
  refine ⟨rfl, rfl, ?_, rfl⟩
  intro hcon
  exact absurd (Except.error.inj hcon) (by decide)

/-- C1 evaluation at the failing input: encrypting the two-chunk device
with blocks 1 and 2 under the involutive block permutation xorP and iv 3
yields device blocks 5 and 0; killing the run right after chunk 0 has
its OffsetLog fsync (snapshot index 2) and re-invoking with the same
arguments re-initialises the CBC chain from the iv, so chunk 1 is
chained from 3 instead of from ciphertext block 5, and the resumed run
ends with device blocks 5 and 6 — not byte-identical to the
uninterrupted run. -/
theorem C1_resume_divergence :
    (mainModel ⟨Mode.enc, false, 16, xorP, xorP, 3⟩ (freshDisk [[1], [2]] true true)).snaps.get? 2
        = some (SnapKind.offS, 0,
            ⟨[[5], [2]], true, true, some 16, none, some [], [(Mode.enc, 0, [5])]⟩)
    ∧ (mainModel ⟨Mode.enc, false, 16, xorP, xorP, 3⟩ (freshDisk [[1], [2]] true true)).disk.device
        = [[5], [0]]
    ∧ (mainModel ⟨Mode.enc, false, 16, xorP, xorP, 3⟩
        ⟨[[5], [2]], true, true, some 16, none, some [], [(Mode.enc, 0, [5])]⟩).outcome
        = Outcome.success
    ∧ (mainModel ⟨Mode.enc, false, 16, xorP, xorP, 3⟩
        ⟨[[5], [2]], true, true, some 16, none, some [], [(Mode.enc, 0, [5])]⟩).disk.device
        = [[5], [6]]
    ∧ ([[5], [6]] : List Chunk) ≠ [[5], [0]] := by
  decide

/-- Counterexample to C7 as stated: on a one-chunk all-zero device, the
encrypt run fsyncs the sparse append (snapshot index 0, enc_sparse holds
the single entry 0 while enc_offset still holds 0); killing there and
re-running to completion appends offset 0 again, so enc_sparse ends as
the two equal consecutive entries 0, 0 — not strictly ascending. -/
theorem C7_duplicate_entry :
    (mainModel ⟨Mode.enc, false, 16, xorP, xorP, 3⟩ (freshDisk [[0]] true true)).snaps.get? 0
        = some (SnapKind.sparseS, 0, ⟨[[0]], true, true, some 0, none, some [0], []⟩)
    ∧ (mainModel ⟨Mode.enc, false, 16, xorP, xorP, 3⟩
        ⟨[[0]], true, true, some 0, none, some [0], []⟩).disk.sparse = some [0, 0]
    ∧ ¬ List.Chain' (fun a b => a < b) [0, 0] := by
  refine ⟨by decide, by decide, ?_⟩
  simp [List.chain'_cons]

theorem mem_of_getLast?_mem (l : List Nat) (x : Nat) (hx : x ∈ l.getLast?) : x ∈ l := by
  obtain ⟨h, rfl⟩ := List.mem_getLast?_eq_getLast hx
  exact List.getLast_mem h

theorem chain'_le_append (l : List Nat) (o : Nat) (hc : List.Chain' (· ≤ ·) l)
    (hb : ∀ e ∈ l, e ≤ o) : List.Chain' (· ≤ ·) (l ++ [o]) := by
  rw [List.chain'_append]
  refine ⟨hc, List.chain'_singleton o, ?_⟩
  intro x hx y hy
  simp only [List.head?_cons, Option.mem_def, Option.some_inj] at hy
  subst hy
  exact hb x (mem_of_getLast?_mem l x hx)

theorem DiskInv_of (d : Disk) (w : Nat) (hoE : d.offEnc = some w)
    (hc : List.Chain' (· ≤ ·) (sparseEntries d)) (hb : ∀ e ∈ sparseEntries d, e ≤ w) :
    DiskInv d := by
  refine ⟨hc, ?_⟩
  rw [hoE]
  simpa using hb

theorem stepChunk_inv (cfg : Cfg) (hm : cfg.mode = Mode.enc) (s : RS) (hinv : RSInv s) :
    (∀ sn ∈ (stepChunk cfg s).2.1, DiskInv sn.2.2)
    ∧ (match (stepChunk cfg s).2.2 with
       | .ok s' => RSInv s'
       | .error p => DiskInv p.2) := by
  obtain ⟨hch, hbd, hoff⟩ := hinv
  have hdinv : DiskInv s.disk := DiskInv_of s.disk s.offset hoff hch hbd
  have hbd' : ∀ e ∈ sparseEntries s.disk, e ≤ s.offset + cfg.chunkSize :=
    fun e he => le_trans (hbd e he) (Nat.le_add_right _ _)
  cases hst : stageLookup s.disk.stages Mode.enc s.offset with
  | some st =>
    by_cases hlen : 16 * st.length ≠ cfg.chunkSize
    · simp only [stepChunk, hm, hst, stepResume, if_pos hlen]
      exact ⟨by simp, hdinv⟩
    · cases hdry : cfg.dryRun <;>
      · simp only [stepChunk, hm, hst, stepResume, if_neg hlen, hdry, Bool.false_eq_true,
          if_false, if_true, Disk.setOffFile]
        refine ⟨?_, ?_, ?_, ?_⟩
        · intro sn hsn
          simp only [List.nil_append, List.cons_append, List.mem_cons,
            List.not_mem_nil, or_false] at hsn
          first
          | (rcases hsn with hsn | hsn <;>
             · subst hsn
               first
               | exact DiskInv_of _ s.offset (by simpa using hoff)
                   (by simpa [sparseEntries] using hch) (by simpa [sparseEntries] using hbd)
               | exact DiskInv_of _ (s.offset + cfg.chunkSize) (by simp)
                   (by simpa [sparseEntries] using hch) (by simpa [sparseEntries] using hbd'))
          | (subst hsn
             exact DiskInv_of _ (s.offset + cfg.chunkSize) (by simp)
               (by simpa [sparseEntries] using hch) (by simpa [sparseEntries] using hbd'))
        · simpa [sparseEntries] using hch
        · simpa [sparseEntries] using hbd'
        · rfl
  | none =>
    have hdec : sparseDecide cfg s
        = (s.sparseCur, allZeroes (s.disk.device.getD (s.offset / cfg.chunkSize) [])) := by
      simp [sparseDecide, hm]
    by_cases hz : allZeroes (s.disk.device.getD (s.offset / cfg.chunkSize) []) = true
    · simp only [stepChunk, hm, hst, hdec, hz, if_true, stepSparseEnc, Disk.setOffFile]
      have hchA : List.Chain' (· ≤ ·) (sparseEntries s.disk ++ [s.offset]) :=
        chain'_le_append _ _ hch hbd
      have hbdA : ∀ e ∈ sparseEntries s.disk ++ [s.offset], e ≤ s.offset := by
        intro e he
        rcases List.mem_append.mp he with he | he
        · exact hbd e he
        · simp at he
          omega
      have hbdA' : ∀ e ∈ sparseEntries s.disk ++ [s.offset], e ≤ s.offset + cfg.chunkSize :=
        fun e he => le_trans (hbdA e he) (Nat.le_add_right _ _)
      refine ⟨?_, ?_, ?_, ?_⟩
      · intro sn hsn
        simp only [List.mem_cons, List.not_mem_nil, or_false] at hsn
        rcases hsn with hsn | hsn <;>
        · subst hsn
          first
          | exact DiskInv_of _ s.offset (by simpa using hoff)
              (by simpa [sparseEntries] using hchA) (by simpa [sparseEntries] using hbdA)
          | exact DiskInv_of _ (s.offset + cfg.chunkSize) (by simp)
              (by simpa [sparseEntries] using hchA) (by simpa [sparseEntries] using hbdA')
      · simpa [sparseEntries] using hchA
      · simpa [sparseEntries] using hbdA'
      · rfl
    · by_cases hlen : 16 * (EVPUpdateWrapper cfg s.chain
          (s.disk.device.getD (s.offset / cfg.chunkSize) [])).1.length ≠ cfg.chunkSize
      · simp only [stepChunk, hm, hst, hdec, hz, Bool.false_eq_true, if_false,
          stepTransform, if_pos hlen]
        exact ⟨by simp, hdinv⟩
      · cases hdry : cfg.dryRun <;>
        · simp only [stepChunk, hm, hst, hdec, hz, Bool.false_eq_true, if_false,
            stepTransform, if_neg hlen, hdry, if_true, Disk.setOffFile,
            List.cons_append, List.nil_append]
          refine ⟨?_, ?_, ?_, ?_⟩
          · intro sn hsn
            simp only [List.mem_cons, List.not_mem_nil, or_false] at hsn
            first
            | (rcases hsn with hsn | hsn | hsn
               · subst hsn
                 exact DiskInv_of _ s.offset (by simpa using hoff)
                   (by simpa [sparseEntries] using hch) (by simpa [sparseEntries] using hbd)
               · subst hsn
                 exact DiskInv_of _ s.offset (by simpa using hoff)
                   (by simpa [sparseEntries] using hch) (by simpa [sparseEntries] using hbd)
               · subst hsn
                 exact DiskInv_of _ (s.offset + cfg.chunkSize) (by simp)
                   (by simpa [sparseEntries] using hch) (by simpa [sparseEntries] using hbd'))
            | (rcases hsn with hsn | hsn
               · subst hsn
                 exact DiskInv_of _ s.offset (by simpa using hoff)
                   (by simpa [sparseEntries] using hch) (by simpa [sparseEntries] using hbd)
               · subst hsn
                 exact DiskInv_of _ (s.offset + cfg.chunkSize) (by simp)
                   (by simpa [sparseEntries] using hch) (by simpa [sparseEntries] using hbd'))
          · simpa [sparseEntries] using hch
          · simpa [sparseEntries] using hbd'
          · rfl

theorem runLoop_inv (cfg : Cfg) (hm : cfg.mode = Mode.enc) :
    ∀ (n : Nat) (s : RS), RSInv s →
    (∀ sn ∈ (runLoop cfg n s).2.1, DiskInv sn.2.2)
    ∧ (match (runLoop cfg n s).2.2 with
       | .ok s' => RSInv s'
       | .error p => DiskInv p.2) := by
  intro n
  induction n with
  | zero =>
    intro s hs
    exact ⟨by simp [runLoop], by simpa [runLoop] using hs⟩
  | succ n ih =>
    intro s hs
    obtain ⟨hsn, hres⟩ := stepChunk_inv cfg hm s hs
    rcases hstep : stepChunk cfg s with ⟨ev, sn, r⟩
    rw [hstep] at hsn hres
    cases r with
    | error p =>
      simp only at hres
      constructor
      · intro x hx
        simp only [runLoop, hstep] at hx
        exact hsn x hx
      · simp only [runLoop, hstep]
        exact hres
    | ok s' =>
      simp only at hres
      obtain ⟨ihsn, ihres⟩ := ih s' hres
      constructor
      · intro x hx
        simp only [runLoop, hstep, List.mem_append] at hx
        rcases hx with hx | hx
        · exact hsn x hx
        · exact ihsn x hx
      · simp only [runLoop, hstep]
        exact ihres

theorem mainModel_inv (cfg : Cfg) (d : Disk)
    (hm : cfg.mode = Mode.enc) (h16 : cfg.chunkSize % 16 = 0) (h0 : 0 < cfg.chunkSize)
    (hinv : DiskInv d) :
    DiskInv (mainModel cfg d).disk ∧ ∀ sn ∈ (mainModel cfg d).snaps, DiskInv sn.2.2 := by
  obtain ⟨dev, hk, hi, oE, oD, sp, st⟩ := d
  obtain ⟨hch, hbd⟩ := hinv
  simp only [sparseEntries] at hch hbd
  have hval := validateSizes_ok cfg.chunkSize dev.length h16 h0
  cases oE with
  | none =>
    simp only [Option.getD_none, Nat.le_zero] at hbd
    by_cases hdone : dev.length * cfg.chunkSize ≤ 0
    · simp only [mainModel, hval, ensureKeys_enc, hm, Disk.offFile, Disk.setOffFile,
        Option.getD_some, hdone, if_true]
      refine ⟨⟨?_, ?_⟩, by simp⟩
      · simpa [sparseEntries] using hch
      · simp only [sparseEntries, Option.getD_some]
        intro e he
        simp [hbd e he]
    · have hrs : RSInv ⟨⟨dev, true, true, some 0, oD,
          some (sp.getD []), st⟩, 0, cfg.iv, (sp.getD [])⟩ := by
        refine ⟨by simpa [sparseEntries] using hch, ?_, rfl⟩
        intro e he
        simp only [sparseEntries, Option.getD_some] at he
        simp [hbd e he]
      obtain ⟨lsn, lres⟩ := runLoop_inv cfg hm
        (dev.length - 0 / cfg.chunkSize)
        ⟨⟨dev, true, true, some 0, oD, some (sp.getD []), st⟩, 0, cfg.iv, (sp.getD [])⟩ hrs
      cases sp with
      | none =>
        simp only [Option.getD_none] at lsn lres
        rcases hloop : (runLoop cfg (dev.length - 0 / cfg.chunkSize)
            ⟨⟨dev, true, true, some 0, oD, some [], st⟩, 0, cfg.iv, []⟩).2.2 with p | sF <;>
        · rw [hloop] at lres
          simp only at lres
          simp only [mainModel, hval, ensureKeys_enc, hm, Disk.offFile, Disk.setOffFile,
            Option.getD_some, hdone, if_false, Option.getD_none, hloop]
          constructor
          · first
            | exact lres
            | exact ⟨lres.1, by rw [lres.2.2]; simpa using lres.2.1⟩
          · intro x hx
            exact lsn x hx
      | some spl =>
        simp only [Option.getD_some] at lsn lres
        rcases hloop : (runLoop cfg (dev.length - 0 / cfg.chunkSize)
            ⟨⟨dev, true, true, some 0, oD, some spl, st⟩, 0, cfg.iv, spl⟩).2.2 with p | sF <;>
        · rw [hloop] at lres
          simp only at lres
          simp only [mainModel, hval, ensureKeys_enc, hm, Disk.offFile, Disk.setOffFile,
            Option.getD_some, hdone, if_false, Option.getD_some, hloop]
          constructor
          · first
            | exact lres
            | exact ⟨lres.1, by rw [lres.2.2]; simpa using lres.2.1⟩
          · intro x hx
            exact lsn x hx
  | some v =>
    simp only [Option.getD_some] at hbd
    by_cases hdone : dev.length * cfg.chunkSize ≤ v
    · simp only [mainModel, hval, ensureKeys_enc, hm, Disk.offFile, Disk.setOffFile,
        Option.getD_some, hdone, if_true]
      refine ⟨⟨?_, ?_⟩, by simp⟩
      · simpa [sparseEntries] using hch
      · simp only [sparseEntries, Option.getD_some]
        intro e he
        exact hbd e he
    · have hrs : RSInv ⟨⟨dev, true, true, some v, oD,
          some (sp.getD []), st⟩, v, cfg.iv, (sp.getD [])⟩ := by
        refine ⟨by simpa [sparseEntries] using hch, ?_, rfl⟩
        intro e he
        simp only [sparseEntries, Option.getD_some] at he
        exact hbd e he
      obtain ⟨lsn, lres⟩ := runLoop_inv cfg hm
        (dev.length - v / cfg.chunkSize)
        ⟨⟨dev, true, true, some v, oD, some (sp.getD []), st⟩, v, cfg.iv, (sp.getD [])⟩ hrs
      cases sp with
      | none =>
        simp only [Option.getD_none] at lsn lres
        rcases hloop : (runLoop cfg (dev.length - v / cfg.chunkSize)
            ⟨⟨dev, true, true, some v, oD, some [], st⟩, v, cfg.iv, []⟩).2.2 with p | sF <;>
        · rw [hloop] at lres
          simp only at lres
          simp only [mainModel, hval, ensureKeys_enc, hm, Disk.offFile, Disk.setOffFile,
            Option.getD_some, hdone, if_false, Option.getD_none, hloop]
          constructor
          · first
            | exact lres
            | exact ⟨lres.1, by rw [lres.2.2]; simpa using lres.2.1⟩
          · intro x hx
            exact lsn x hx
      | some spl =>
        simp only [Option.getD_some] at lsn lres
        rcases hloop : (runLoop cfg (dev.length - v / cfg.chunkSize)
            ⟨⟨dev, true, true, some v, oD, some spl, st⟩, v, cfg.iv, spl⟩).2.2 with p | sF <;>
        · rw [hloop] at lres
          simp only at lres
          simp only [mainModel, hval, ensureKeys_enc, hm, Disk.offFile, Disk.setOffFile,
            Option.getD_some, hdone, if_false, Option.getD_some, hloop]
          constructor
          · first
            | exact lres
            | exact ⟨lres.1, by rw [lres.2.2]; simpa using lres.2.1⟩
          · intro x hx
            exact lsn x hx

/-- Corrected form of C7: during encrypt the SparseLog grows in
non-decreasing order, and this is preserved across any crash and resume:
for every durable snapshot a kill can leave behind (including one between
the sparse-append fsync and the OffsetLog fsync), re-running to
completion yields a SparseLog whose consecutive entries a, b satisfy
a ≤ b.  Strict ascent is the uncrashed behaviour; after the named crash
window the resumed run may re-append the last offset, so equal adjacent
entries can occur and only non-decreasing order holds in general. -/
theorem C7_amended (cfg : Cfg) (d0 : Disk) (sn : Snap)
    (hm : cfg.mode = Mode.enc)
    (h16 : cfg.chunkSize % 16 = 0) (h0 : 0 < cfg.chunkSize)
    (hinv : DiskInv d0)
    (hsn : sn ∈ (mainModel cfg d0).snaps) :
    List.Chain' (· ≤ ·) (sparseEntries (mainModel cfg sn.2.2).disk)
    ∧ List.Chain' (· ≤ ·) (sparseEntries (mainModel cfg d0).disk) := by
  obtain ⟨hfin, hsnaps⟩ := mainModel_inv cfg d0 hm h16 h0 hinv
  obtain ⟨hfin2, _⟩ := mainModel_inv cfg sn.2.2 hm h16 h0 (hsnaps sn hsn)
  exact ⟨hfin2.1, hfin.1⟩

/-- Witness for C7_amended at the concrete crash of C7_duplicate_entry:
the resumed sparse log is the non-decreasing list with entries 0, 0. -/
theorem C7_amended_witness :
    List.Chain' (· ≤ ·) (sparseEntries (mainModel ⟨Mode.enc, false, 16, xorP, xorP, 3⟩
        ⟨[[0]], true, true, some 0, none, some [0], []⟩).disk)
    ∧ List.Chain' (· ≤ ·) (sparseEntries (mainModel ⟨Mode.enc, false, 16, xorP, xorP, 3⟩
        (freshDisk [[0]] true true)).disk) :=
  C7_amended ⟨Mode.enc, false, 16, xorP, xorP, 3⟩ (freshDisk [[0]] true true)
    (SnapKind.sparseS, 0, ⟨[[0]], true, true, some 0, none, some [0], []⟩)
    rfl (by decide) (by decide)
    (by simp [DiskInv, sparseEntries, freshDisk])
    (by decide)

end BdEnc
